import Mathlib

/-!
Verification of the weight-suggestion engine of the workout-tracker
repository (`src/utils/seedUserData.ts`): the rounding helper
`roundToIncrement`, the decision function `calculateSuggestedWeight`,
and the display helper `formatWeight`.

JavaScript numbers are modelled as exact rationals (ℚ); `Math.round` is
modelled by its ECMAScript semantics: the nearest integer, with exact
half-way ties resolved toward positive infinity, i.e. `⌊x + 1/2⌋`.
-/

namespace WorkoutTracker

/-- Equipment tag, from `type Equipment` in the source. -/
inductive Equipment where
  | barbell
  | dumbbell
  | cable
  | machine
  | bodyweight
  | other
deriving DecidableEq, Repr

/-- `const INCREASE_PERCENTAGE = 0.025`. -/
def INCREASE_PERCENTAGE : ℚ := 25 / 1000

/-- `const EQUIPMENT_INCREMENTS: Record<Equipment, number>`. -/
def EQUIPMENT_INCREMENTS : Equipment → ℚ
  | .barbell => 5 / 2
  | .dumbbell => 2
  | .cable => 5 / 2
  | .machine => 5 / 2
  | .bodyweight => 0
  | .other => 5 / 2

/-- `interface PreviousSet { weight?: number; reps?: number }`:
both fields are independently optional. -/
structure PreviousSet where
  weight : Option ℚ
  reps : Option ℚ
deriving DecidableEq, Repr

/-- `interface SuggestionResult { weight: number; isIncrease: boolean }`. -/
structure SuggestionResult where
  weight : ℚ
  isIncrease : Bool
deriving DecidableEq, Repr

/-- Model of JavaScript `Math.round`: the integer nearest to `x`, with
exact `.5` ties rounded toward positive infinity (ECMAScript 21.3.2.29). -/
def mathRound (x : ℚ) : ℤ := ⌊x + 1 / 2⌋

/-- `function roundToIncrement(weight, increment) {
  return Math.round(weight / increment) * increment; }` -/
def roundToIncrement (weight increment : ℚ) : ℚ :=
  (mathRound (weight / increment) : ℚ) * increment

/-- The filter predicate `s => s.weight !== undefined && s.weight > 0`. -/
def hasPosWeight (s : PreviousSet) : Bool :=
  match s.weight with
  | some w => decide (0 < w)
  | none => false

/-- Model of `Math.max(...xs)` for a non-empty spread argument list
(the empty case, JavaScript `-Infinity`, is unreachable in the source:
it is guarded by the `setsWithWeight.length === 0` early return). -/
def listMax : List ℚ → ℚ
  | [] => 0
  | x :: xs => xs.foldl max x

/-- `export function calculateSuggestedWeight(previousSets, targetReps,
equipment = 'other')` from `src/utils/seedUserData.ts`, translated
clause by clause. -/
def calculateSuggestedWeight (previousSets : Option (List PreviousSet))
    (targetReps : ℚ) (equipment : Equipment := .other) :
    Option SuggestionResult :=
  -- No suggestion for bodyweight exercises
  if equipment = .bodyweight then none
  else
    -- No previous data
    match previousSets with
    | none => none
    | some sets =>
      if sets.length = 0 then none
      else
        -- Filter sets that have weight data
        let setsWithWeight := sets.filter hasPosWeight
        if setsWithWeight.length = 0 then none
        else
          -- Get max weight used (for when different weights across sets)
          let maxWeight := listMax (setsWithWeight.map fun s => s.weight.getD 0)
          -- Check if target reps were hit on ALL sets
          let hitTargetOnAllSets :=
            setsWithWeight.all fun s => decide (targetReps ≤ s.reps.getD 0)
          let increment := EQUIPMENT_INCREMENTS equipment
          if hitTargetOnAllSets then
            -- Suggest increased weight
            let rawIncrease := maxWeight * (1 + INCREASE_PERCENTAGE)
            let suggested := roundToIncrement rawIncrease increment
            -- Ensure we actually increase (in case rounding went down)
            let finalWeight :=
              if maxWeight < suggested then suggested else maxWeight + increment
            some ⟨finalWeight, true⟩
          else
            -- Maintain current weight
            some ⟨maxWeight, false⟩

/-- Instrumented rounding: reports an error instead of evaluating
`weight / increment` when the increment is zero (the one division in the
engine whose divisor could in principle be `bodyweight`'s 0 increment). -/
def roundToIncrementChecked (weight increment : ℚ) : Except String ℚ :=
  if increment = 0 then Except.error "rounding reached with zero increment"
  else Except.ok (roundToIncrement weight increment)

/-- `calculateSuggestedWeight` with the rounding step instrumented by
`roundToIncrementChecked`; structurally identical to the source
otherwise. -/
def calculateSuggestedWeightChecked (previousSets : Option (List PreviousSet))
    (targetReps : ℚ) (equipment : Equipment := .other) :
    Except String (Option SuggestionResult) :=
  if equipment = .bodyweight then Except.ok none
  else
    match previousSets with
    | none => Except.ok none
    | some sets =>
      if sets.length = 0 then Except.ok none
      else
        let setsWithWeight := sets.filter hasPosWeight
        if setsWithWeight.length = 0 then Except.ok none
        else
          let maxWeight := listMax (setsWithWeight.map fun s => s.weight.getD 0)
          let hitTargetOnAllSets :=
            setsWithWeight.all fun s => decide (targetReps ≤ s.reps.getD 0)
          let increment := EQUIPMENT_INCREMENTS equipment
          if hitTargetOnAllSets then
            let rawIncrease := maxWeight * (1 + INCREASE_PERCENTAGE)
            match roundToIncrementChecked rawIncrease increment with
            | Except.error msg => Except.error msg
            | Except.ok suggested =>
              let finalWeight :=
                if maxWeight < suggested then suggested else maxWeight + increment
              Except.ok (some ⟨finalWeight, true⟩)
          else
            Except.ok (some ⟨maxWeight, false⟩)

/-- Decimal digit characters of `n`, most significant first: the model of
the decimal rendering used by JavaScript `Number.prototype.toString` and
`toFixed` for the magnitudes the engine produces (no exponent form). -/
def natToChars (n : ℕ) : List Char :=
  if _ : n < 10 then [Nat.digitChar n]
  else natToChars (n / 10) ++ [Nat.digitChar (n % 10)]
decreasing_by exact Nat.div_lt_self (by omega) (by omega)

/-- Model of `Number.prototype.toString` on an integral value: optional
sign followed by decimal digits. -/
def intToString (i : ℤ) : String :=
  if i < 0 then String.mk ('-' :: natToChars i.natAbs)
  else String.mk (natToChars i.natAbs)

/-- Model of `Number.prototype.toFixed(1)` (ECMAScript 21.1.3.3): an
optional sign, then the decimal digits of `n / 10` where `n` is the
integer nearest `|x| * 10` (ties choosing the larger), a point, and the
single digit `n % 10`. -/
def toFixed1 (x : ℚ) : String :=
  let sgn := if x < 0 then "-" else ""
  let n := (⌊|x| * 10 + 1 / 2⌋).toNat
  sgn ++ String.mk (natToChars (n / 10)) ++ "." ++ String.mk [Nat.digitChar (n % 10)]

/-- `export function formatWeight(weight) {
  return weight % 1 === 0 ? weight.toString() : weight.toFixed(1); }`
(`weight % 1 === 0` tests integrality, modelled as `⌊weight⌋ = weight`). -/
def formatWeight (weight : ℚ) : String :=
  if (⌊weight⌋ : ℚ) = weight then intToString ⌊weight⌋ else toFixed1 weight

/-! ### Helper lemmas -/

theorem EQUIPMENT_INCREMENTS_pos (e : Equipment) (he : e ≠ .bodyweight) :
    0 < EQUIPMENT_INCREMENTS e := by
  cases e <;> first
  | exact absurd rfl he
  | norm_num [EQUIPMENT_INCREMENTS]

theorem foldl_max_spec (xs : List ℚ) (x : ℚ) :
    xs.foldl max x ∈ x :: xs ∧ x ≤ xs.foldl max x ∧
      ∀ y ∈ xs, y ≤ xs.foldl max x := by
  induction xs generalizing x with
  | nil => simp
  | cons a as ih =>
    obtain ⟨hmem, hle, hub⟩ := ih (max x a)
    simp only [List.foldl_cons]
    refine ⟨?_, le_trans (le_max_left x a) hle, ?_⟩
    · rcases List.mem_cons.1 hmem with h | h
      · rcases max_choice x a with hc | hc <;> rw [h, hc] <;> simp
      · exact List.mem_cons_of_mem x (List.mem_cons_of_mem a h)
    · intro y hy
      rcases List.mem_cons.1 hy with h | h
      · rw [h]; exact le_trans (le_max_right x a) hle
      · exact hub y h

theorem listMax_eq_of_max (l : List ℚ) (m : ℚ) (hm : m ∈ l)
    (hub : ∀ y ∈ l, y ≤ m) : listMax l = m := by
  cases l with
  | nil => exact absurd hm (List.not_mem_nil m)
  | cons x xs =>
    obtain ⟨hmem, _, hub'⟩ := foldl_max_spec xs x
    refine le_antisymm (hub _ hmem) ?_
    rcases List.mem_cons.1 hm with h | h
    · exact h ▸ (foldl_max_spec xs x).2.1
    · exact hub' m h

theorem hasPosWeight_iff (s : PreviousSet) :
    hasPosWeight s = true ↔ ∃ w, s.weight = some w ∧ 0 < w := by
  cases h : s.weight <;> simp [hasPosWeight, h]

/-! ### Rounding: nearest-integer and tie-breaking behaviour -/

theorem mathRound_nearest (x : ℚ) (k : ℤ) :
    |(mathRound x : ℚ) - x| ≤ |(k : ℚ) - x| := by
  unfold mathRound
  set r : ℤ := ⌊x + 1 / 2⌋ with hr
  have h1 : (r : ℚ) ≤ x + 1 / 2 := Int.floor_le _
  have h2 : x + 1 / 2 < (r : ℚ) + 1 := Int.lt_floor_add_one _
  have hself : |(r : ℚ) - x| ≤ 1 / 2 := abs_le.mpr ⟨by linarith, by linarith⟩
  rcases lt_trichotomy k r with h | h | h
  · have hk' : k + 1 ≤ r := Int.lt_iff_add_one_le.mp h
    have hk : (k : ℚ) + 1 ≤ (r : ℚ) := by exact_mod_cast hk'
    have : 1 / 2 ≤ x - (k : ℚ) := by linarith
    calc |(r : ℚ) - x| ≤ 1 / 2 := hself
      _ ≤ x - (k : ℚ) := this
      _ ≤ |(k : ℚ) - x| := by rw [abs_sub_comm]; exact le_abs_self _
  · simp [h]
  · have hk : (r : ℚ) + 1 ≤ (k : ℚ) := by exact_mod_cast h
    have : 1 / 2 ≤ (k : ℚ) - x := by linarith
    calc |(r : ℚ) - x| ≤ 1 / 2 := hself
      _ ≤ (k : ℚ) - x := this
      _ ≤ |(k : ℚ) - x| := le_abs_self _

theorem mathRound_tie (x : ℚ) (h : x - ⌊x⌋ = 1 / 2) :
    mathRound x = ⌊x⌋ + 1 := by
  unfold mathRound
  have hx : x + 1 / 2 = (⌊x⌋ : ℚ) + 1 := by linarith
  rw [hx]
  have : ((⌊x⌋ : ℚ) + 1) = ((⌊x⌋ + 1 : ℤ) : ℚ) := by push_cast; ring
  rw [this, Int.floor_intCast]

/-- Claim C5: for every weight and every strictly positive increment,
`roundToIncrement weight increment` equals `Math.round (weight / increment) *
increment`, the rounded value is the increment-aligned value nearest to the
input, and exact half-increment boundaries round up (toward the larger
aligned value). -/
theorem roundToIncrement_spec (w i : ℚ) (hi : 0 < i) :
    roundToIncrement w i = (mathRound (w / i) : ℚ) * i ∧
    (∀ k : ℤ, |roundToIncrement w i - w| ≤ |(k : ℚ) * i - w|) ∧
    (w / i - ⌊w / i⌋ = 1 / 2 →
      roundToIncrement w i = ((⌊w / i⌋ : ℚ) + 1) * i) := by
  have hi' : i ≠ 0 := ne_of_gt hi
  refine ⟨rfl, ?_, ?_⟩
  · intro k
    have hw : w = w / i * i := (div_mul_cancel₀ w hi').symm
    have hnear := mathRound_nearest (w / i) k
    calc |roundToIncrement w i - w|
        = |((mathRound (w / i) : ℚ) - w / i) * i| := by
          rw [roundToIncrement, sub_mul, ← hw]
      _ = |(mathRound (w / i) : ℚ) - w / i| * i := by
          rw [abs_mul, abs_of_pos hi]
      _ ≤ |(k : ℚ) - w / i| * i := by
          exact mul_le_mul_of_nonneg_right hnear (le_of_lt hi)
      _ = |((k : ℚ) - w / i) * i| := by rw [abs_mul, abs_of_pos hi]
      _ = |(k : ℚ) * i - w| := by rw [sub_mul, ← hw]
  · intro htie
    rw [roundToIncrement, mathRound_tie _ htie]
    push_cast
    try ring

/-- Witness for C5 at `w = 5/4`, `i = 1/2`: the quotient is `5/2`, an exact
half-increment tie, so the rounded value is the upper aligned value `3/2`. -/
theorem roundToIncrement_spec_witness :
    roundToIncrement (5 / 4) (1 / 2) = ((⌊(5 / 4 : ℚ) / (1 / 2)⌋ : ℚ) + 1) * (1 / 2) :=
  (roundToIncrement_spec (5 / 4) (1 / 2) (by norm_num)).2.2 (by norm_num)

/-- Claim C6: rounding is idempotent on already-aligned values: for every
integer `k` and strictly positive increment `i`,
`roundToIncrement (k * i) i = k * i`. -/
theorem roundToIncrement_idem (k : ℤ) (i : ℚ) (hi : 0 < i) :
    roundToIncrement ((k : ℚ) * i) i = (k : ℚ) * i := by
  have hi' : i ≠ 0 := ne_of_gt hi
  rw [roundToIncrement, mul_div_assoc, div_self hi', mul_one]
  have : mathRound (k : ℚ) = k := by
    rw [mathRound, Int.floor_int_add]
    norm_num
  rw [this]

/-- Witness for C6 at `k = 4`, `i = 5/2`. -/
theorem roundToIncrement_idem_witness :
    roundToIncrement (((4 : ℤ) : ℚ) * (5 / 2)) (5 / 2) = ((4 : ℤ) : ℚ) * (5 / 2) :=
  roundToIncrement_idem 4 (5 / 2) (by norm_num)

/-! ### Unfolding the decision function past its guard clauses -/

theorem calculateSuggestedWeight_some_eq (l : List PreviousSet) (t : ℚ)
    (e : Equipment) (he : e ≠ .bodyweight) (hne : l.filter hasPosWeight ≠ []) :
    calculateSuggestedWeight (some l) t e =
      if (l.filter hasPosWeight).all (fun s => decide (t ≤ s.reps.getD 0)) then
        some ⟨if listMax ((l.filter hasPosWeight).map fun s => s.weight.getD 0) <
                  roundToIncrement
                    (listMax ((l.filter hasPosWeight).map fun s => s.weight.getD 0) *
                      (1 + INCREASE_PERCENTAGE)) (EQUIPMENT_INCREMENTS e)
              then roundToIncrement
                    (listMax ((l.filter hasPosWeight).map fun s => s.weight.getD 0) *
                      (1 + INCREASE_PERCENTAGE)) (EQUIPMENT_INCREMENTS e)
              else listMax ((l.filter hasPosWeight).map fun s => s.weight.getD 0) +
                    EQUIPMENT_INCREMENTS e, true⟩
      else some ⟨listMax ((l.filter hasPosWeight).map fun s => s.weight.getD 0), false⟩ := by
  have hl : l ≠ [] := fun h => hne (by simp [h])
  have hlen : ¬l.length = 0 := by simpa [List.length_eq_zero] using hl
  have hflen : ¬(l.filter hasPosWeight).length = 0 := by
    simpa [List.length_eq_zero] using hne
  simp only [calculateSuggestedWeight, if_neg he, if_neg hlen, if_neg hflen]

/-- Claim C1: for every non-bodyweight equipment, whenever the filtered
subset (defined, strictly positive weight) is non-empty with maximum
weight `m` and every filtered set's rep count (absent treated as zero)
reaches `targetReps`, the result is an increase: the 2.5%-raised weight
rounded to the equipment increment when that rounded value is strictly
greater than `m`, and `m + increment` otherwise; either way the returned
weight is strictly greater than `m`. -/
theorem suggestion_increase_spec (l : List PreviousSet) (t m : ℚ) (e : Equipment)
    (he : e ≠ .bodyweight)
    (hm : m ∈ (l.filter hasPosWeight).map fun s => s.weight.getD 0)
    (hub : ∀ y ∈ (l.filter hasPosWeight).map fun s => s.weight.getD 0, y ≤ m)
    (hall : ∀ s ∈ l.filter hasPosWeight, t ≤ s.reps.getD 0) :
    calculateSuggestedWeight (some l) t e =
      some ⟨if m < roundToIncrement (m * (1 + INCREASE_PERCENTAGE)) (EQUIPMENT_INCREMENTS e)
            then roundToIncrement (m * (1 + INCREASE_PERCENTAGE)) (EQUIPMENT_INCREMENTS e)
            else m + EQUIPMENT_INCREMENTS e, true⟩ ∧
    m < (if m < roundToIncrement (m * (1 + INCREASE_PERCENTAGE)) (EQUIPMENT_INCREMENTS e)
         then roundToIncrement (m * (1 + INCREASE_PERCENTAGE)) (EQUIPMENT_INCREMENTS e)
         else m + EQUIPMENT_INCREMENTS e) := by
  have hne : l.filter hasPosWeight ≠ [] := by
    intro h; rw [h] at hm; simp at hm
  have hmax : listMax ((l.filter hasPosWeight).map fun s => s.weight.getD 0) = m :=
    listMax_eq_of_max _ m hm hub
  have hallb : (l.filter hasPosWeight).all (fun s => decide (t ≤ s.reps.getD 0)) = true := by
    rw [List.all_eq_true]
    intro s hs
    exact decide_eq_true (hall s hs)
  constructor
  · rw [calculateSuggestedWeight_some_eq l t e he hne, hmax, if_pos hallb]
  · split_ifs with hlt
    · exact hlt
    · linarith [EQUIPMENT_INCREMENTS_pos e he]

/-- Witness for C1: one previous set of 40 kg for 8 reps, target 8,
barbell. -/
theorem suggestion_increase_spec_witness :
    calculateSuggestedWeight (some [⟨some 40, some 8⟩]) 8 .barbell =
      some ⟨if (40 : ℚ) < roundToIncrement (40 * (1 + INCREASE_PERCENTAGE))
                (EQUIPMENT_INCREMENTS .barbell)
            then roundToIncrement (40 * (1 + INCREASE_PERCENTAGE))
                (EQUIPMENT_INCREMENTS .barbell)
            else 40 + EQUIPMENT_INCREMENTS .barbell, true⟩ ∧
    (40 : ℚ) < (if (40 : ℚ) < roundToIncrement (40 * (1 + INCREASE_PERCENTAGE))
                    (EQUIPMENT_INCREMENTS .barbell)
                then roundToIncrement (40 * (1 + INCREASE_PERCENTAGE))
                    (EQUIPMENT_INCREMENTS .barbell)
                else 40 + EQUIPMENT_INCREMENTS .barbell) :=
  suggestion_increase_spec [⟨some 40, some 8⟩] 8 40 .barbell
    (fun h => nomatch h)
    (by norm_num [List.filter, hasPosWeight])
    (by norm_num [List.filter, hasPosWeight])
    (by norm_num [List.filter, hasPosWeight])

/-- Claim C4: for every non-bodyweight equipment and non-empty filtered
subset with maximum weight `m`, if some filtered set's rep count (absent
treated as zero) is strictly below `targetReps`, the result is exactly
`{ weight := m, isIncrease := false }`: the maintain outcome never
changes the weight. -/
theorem suggestion_maintain_spec (l : List PreviousSet) (t m : ℚ) (e : Equipment)
    (he : e ≠ .bodyweight)
    (hm : m ∈ (l.filter hasPosWeight).map fun s => s.weight.getD 0)
    (hub : ∀ y ∈ (l.filter hasPosWeight).map fun s => s.weight.getD 0, y ≤ m)
    (hmiss : ∃ s ∈ l.filter hasPosWeight, s.reps.getD 0 < t) :
    calculateSuggestedWeight (some l) t e = some ⟨m, false⟩ := by
  have hne : l.filter hasPosWeight ≠ [] := by
    intro h; rw [h] at hm; simp at hm
  have hmax : listMax ((l.filter hasPosWeight).map fun s => s.weight.getD 0) = m :=
    listMax_eq_of_max _ m hm hub
  obtain ⟨s0, hs0, hlt⟩ := hmiss
  have hallb : ¬(l.filter hasPosWeight).all (fun s => decide (t ≤ s.reps.getD 0)) = true := by
    rw [List.all_eq_true]
    intro h
    have := h s0 hs0
    rw [decide_eq_true_eq] at this
    exact absurd this (not_le.mpr hlt)
  rw [calculateSuggestedWeight_some_eq l t e he hne, hmax, if_neg hallb]

/-- Witness for C4: sets of 40×8 and 42×7 with target 8, barbell: the
second set misses, so the engine maintains the maximum weight 42. -/
theorem suggestion_maintain_spec_witness :
    calculateSuggestedWeight (some [⟨some 40, some 8⟩, ⟨some 42, some 7⟩]) 8 .barbell =
      some ⟨42, false⟩ :=
  suggestion_maintain_spec [⟨some 40, some 8⟩, ⟨some 42, some 7⟩] 8 42 .barbell
    (fun h => nomatch h)
    (by norm_num [List.filter, hasPosWeight])
    (by norm_num [List.filter, hasPosWeight])
    (by
      refine ⟨⟨some 42, some 7⟩, ?_, by norm_num⟩
      norm_num [List.filter, hasPosWeight])

/-- Claim C2: the engine returns "no suggestion" (`none`) exactly when the
equipment is bodyweight, or the previous-sets list is absent or empty, or
no previous set carries a defined, strictly positive weight; every other
input yields a definite suggestion. -/
theorem no_suggestion_iff (ps : Option (List PreviousSet)) (t : ℚ) (e : Equipment) :
    calculateSuggestedWeight ps t e = none ↔
      e = .bodyweight ∨ ps = none ∨ ps = some [] ∨
      ∃ l, ps = some l ∧ ∀ s ∈ l, ∀ w, s.weight = some w → w ≤ 0 := by
  by_cases hbw : e = .bodyweight
  · simp [calculateSuggestedWeight, hbw]
  cases ps with
  | none => simp [calculateSuggestedWeight, hbw]
  | some l =>
    by_cases hfe : l.filter hasPosWeight = []
    · have hres : calculateSuggestedWeight (some l) t e = none := by
        by_cases hl : l = []
        · simp [calculateSuggestedWeight, hbw, hl]
        · have hlen : ¬l.length = 0 := by simpa [List.length_eq_zero] using hl
          simp [calculateSuggestedWeight, hbw, hlen, hfe]
      have hnopos : ∀ s ∈ l, ∀ w, s.weight = some w → w ≤ 0 := by
        intro s hs w hw
        have := (List.filter_eq_nil_iff.mp hfe) s hs
        rw [hasPosWeight_iff] at this
        push_neg at this
        exact this w hw
      simp only [hres, true_iff]
      exact Or.inr (Or.inr (Or.inr ⟨l, rfl, hnopos⟩))
    · have hres : calculateSuggestedWeight (some l) t e ≠ none := by
        rw [calculateSuggestedWeight_some_eq l t e hbw hfe]
        split_ifs <;> simp
      simp only [hres, false_iff]
      rintro (h | h | h | ⟨l', hl', hall⟩)
      · exact hbw h
      · exact Option.noConfusion h
      · have : l = [] := by injection h
        exact hfe (by simp [this])
      · have hll : l = l' := by injection hl'
        subst hll
        obtain ⟨s0, hs0⟩ := List.exists_mem_of_ne_nil _ hfe
        have hs0l : s0 ∈ l := List.mem_of_mem_filter hs0
        have hpos := (hasPosWeight_iff s0).mp (List.of_mem_filter hs0)
        obtain ⟨w, hw, hwpos⟩ := hpos
        exact absurd (hall s0 hs0l w hw) (not_le.mpr hwpos)

/-- Counterexample to C3 as stated: with `targetReps = 0` a filtered set
with an absent rep count does not block the increase — absent reps count
as zero, and `0 ≥ 0` holds, so the engine still suggests an increase
(here `10 * 1.025 = 10.25` rounds back to `10`, so the guard yields
`10 + 2.5 = 12.5`). -/
theorem absent_reps_blocks_increase_cex :
    ([⟨some 10, none⟩] : List PreviousSet).filter hasPosWeight = [⟨some 10, none⟩] ∧
    (⟨some 10, none⟩ : PreviousSet).reps = none ∧
    calculateSuggestedWeight (some [⟨some 10, none⟩]) 0 .barbell =
      some ⟨25 / 2, true⟩ := by
  refine ⟨by norm_num [List.filter, hasPosWeight], rfl, ?_⟩
  norm_num [calculateSuggestedWeight, List.filter, hasPosWeight, listMax,
    List.all, roundToIncrement, mathRound, EQUIPMENT_INCREMENTS, INCREASE_PERCENTAGE]
  exact fun h => nomatch h

/-- Claim C3 (amended): for every input reaching the decision step, the
increase branch is taken if and only if every filtered set's rep count
(absent treated as zero) is at least `targetReps`; and — provided
`targetReps` is strictly positive — the presence of any filtered set with
an absent rep count forces the maintain outcome. -/
theorem hit_target_decision (l : List PreviousSet) (t : ℚ) (e : Equipment)
    (he : e ≠ .bodyweight) (hne : l.filter hasPosWeight ≠ []) :
    ((∃ r, calculateSuggestedWeight (some l) t e = some r ∧ r.isIncrease = true) ↔
      ∀ s ∈ l.filter hasPosWeight, t ≤ s.reps.getD 0) ∧
    (0 < t → ∀ s ∈ l.filter hasPosWeight, s.reps = none →
      calculateSuggestedWeight (some l) t e =
        some ⟨listMax ((l.filter hasPosWeight).map fun s => s.weight.getD 0), false⟩) := by
  rw [calculateSuggestedWeight_some_eq l t e he hne]
  constructor
  · by_cases hall : (l.filter hasPosWeight).all (fun s => decide (t ≤ s.reps.getD 0)) = true
    · rw [if_pos hall]
      simp only [List.all_eq_true, decide_eq_true_eq] at hall
      exact ⟨fun _ => hall, fun _ => ⟨_, rfl, rfl⟩⟩
    · rw [if_neg hall]
      simp only [List.all_eq_true, decide_eq_true_eq] at hall
      constructor
      · rintro ⟨r, hr, hinc⟩
        rw [Option.some_inj] at hr
        rw [← hr] at hinc
        exact absurd hinc (by simp)
      · intro h
        exact absurd h hall
  · intro ht s hs hreps
    have hall : ¬(l.filter hasPosWeight).all (fun s => decide (t ≤ s.reps.getD 0)) = true := by
      rw [List.all_eq_true]
      intro h
      have := h s hs
      rw [decide_eq_true_eq, hreps] at this
      simp at this
      linarith
    rw [if_neg hall]

/-- Witness for the amended C3: a single set of 40 kg for 8 reps with
target 8 reaches the decision step and every filtered set hits the
target, so an increase result exists. -/
theorem hit_target_decision_witness :
    ∃ r, calculateSuggestedWeight (some [⟨some 40, some 8⟩]) 8 .barbell = some r ∧
      r.isIncrease = true :=
  (hit_target_decision [⟨some 40, some 8⟩] 8 .barbell
    (fun hbw => nomatch hbw)
    (by norm_num [List.filter, hasPosWeight])).1.mpr
    (by norm_num [List.filter, hasPosWeight])

/-! ### Totality: the zero-increment division hazard is unreachable -/

/-- Claim C7: the engine is total: for every combination of absent, empty
or partially populated previous sets, every target rep count, and every
equipment tag, the instrumented run never reaches the zero-increment
division and agrees with the pure function — in particular `bodyweight`'s
zero increment is short-circuited before any rounding. -/
theorem calculateSuggestedWeight_total (ps : Option (List PreviousSet))
    (t : ℚ) (e : Equipment) :
    calculateSuggestedWeightChecked ps t e =
      Except.ok (calculateSuggestedWeight ps t e) := by
  by_cases hbw : e = .bodyweight
  · simp [calculateSuggestedWeightChecked, calculateSuggestedWeight, hbw]
  have hinc : EQUIPMENT_INCREMENTS e ≠ 0 :=
    ne_of_gt (EQUIPMENT_INCREMENTS_pos e hbw)
  cases ps with
  | none => simp [calculateSuggestedWeightChecked, calculateSuggestedWeight, hbw]
  | some l =>
    simp only [calculateSuggestedWeightChecked, calculateSuggestedWeight,
      if_neg hbw, roundToIncrementChecked, if_neg hinc]
    by_cases hlen : l.length = 0
    · simp [hlen]
    · simp only [if_neg hlen]
      by_cases hflen : (l.filter hasPosWeight).length = 0
      · simp [hflen]
      · simp only [if_neg hflen]
        rcases Decidable.em
            (((l.filter hasPosWeight).all fun s => decide (t ≤ s.reps.getD 0)) = true) with
          hall | hall
        · rw [if_pos hall, if_pos hall]
        · rw [if_neg hall, if_neg hall]

/-! ### The display helper `formatWeight` -/

theorem digitChar_ne_dot : ∀ d : ℕ, d < 10 → Nat.digitChar d ≠ '.' := by decide

theorem digitChar_of_lt_isDigit : ∀ d : ℕ, d < 10 → (Nat.digitChar d).isDigit = true := by
  decide

theorem natToChars_ne_dot (n : ℕ) : ∀ c ∈ natToChars n, c ≠ '.' := by
  induction n using Nat.strong_induction_on with
  | _ n ih =>
    rw [natToChars]
    split
    · intro c hc
      simp only [List.mem_singleton] at hc
      subst hc
      next h => exact digitChar_ne_dot n h
    · intro c hc
      rcases List.mem_append.1 hc with h1 | h1
      · next h => exact ih (n / 10) (Nat.div_lt_self (by omega) (by omega)) c h1
      · simp only [List.mem_singleton] at h1
        subst h1
        exact digitChar_ne_dot _ (Nat.mod_lt _ (by omega))

theorem intToString_no_dot (i : ℤ) : '.' ∉ (intToString i).data := by
  rw [intToString]
  split
  · intro hc
    rcases List.mem_cons.1 hc with h | h
    · exact absurd h (by decide)
    · exact natToChars_ne_dot _ _ h rfl
  · intro hc
    exact natToChars_ne_dot _ _ hc rfl

/-- Claim C8: `formatWeight` renders integral weights with no decimal
point and fractional weights with exactly one digit after a single
decimal point; in particular 42 renders as "42", 26.5 as "26.5" and
62.5 as "62.5". -/
theorem formatWeight_shape (w : ℚ) :
    ((∃ k : ℤ, w = (k : ℚ)) → '.' ∉ (formatWeight w).data) ∧
    (¬(∃ k : ℤ, w = (k : ℚ)) →
      ∃ pre d, (formatWeight w).data = pre ++ ['.', d] ∧ '.' ∉ pre ∧
        d.isDigit = true) ∧
    formatWeight 42 = "42" ∧ formatWeight (53 / 2) = "26.5" ∧
    formatWeight (125 / 2) = "62.5" := by
  refine ⟨?_, ?_, ?_, ?_, ?_⟩
  · rintro ⟨k, rfl⟩
    rw [formatWeight, if_pos (by rw [Int.floor_intCast])]
    exact intToString_no_dot _
  · intro h
    have hni : ¬((⌊w⌋ : ℚ) = w) := fun hc => h ⟨⌊w⌋, hc.symm⟩
    rw [formatWeight, if_neg hni, toFixed1]
    refine ⟨(if w < 0 then "-" else "").data ++
        natToChars ((⌊|w| * 10 + 1 / 2⌋).toNat / 10),
      Nat.digitChar ((⌊|w| * 10 + 1 / 2⌋).toNat % 10), ?_, ?_, ?_⟩
    · simp only [String.data_append]
      simp [List.append_assoc]
    · intro hc
      rcases List.mem_append.1 hc with h1 | h1
      · split at h1
        · rcases List.mem_cons.1 h1 with h2 | h2
          · exact absurd h2 (by decide)
          · exact absurd h2 (List.not_mem_nil '.')
        · exact absurd h1 (List.not_mem_nil '.')
      · exact natToChars_ne_dot _ _ h1 rfl
    · exact digitChar_of_lt_isDigit _ (Nat.mod_lt _ (by omega))
  · rw [formatWeight, if_pos (by norm_num)]
    have h2 : ⌊(42 : ℚ)⌋ = 42 := by norm_num
    rw [h2, intToString, if_neg (by norm_num)]
    show String.mk (natToChars 42) = "42"
    rw [natToChars, natToChars]
    norm_num [Nat.digitChar]
  · rw [formatWeight, if_neg (by norm_num), toFixed1]
    have habs : |(53 / 2 : ℚ)| = 53 / 2 := by norm_num
    have h2 : (⌊|(53 / 2 : ℚ)| * 10 + 1 / 2⌋) = 265 := by rw [habs]; norm_num
    rw [h2, if_neg (by norm_num)]
    show "" ++ String.mk (natToChars ((265 : ℤ).toNat / 10)) ++ "." ++
        String.mk [Nat.digitChar ((265 : ℤ).toNat % 10)] = "26.5"
    norm_num
    rw [natToChars, natToChars]
    norm_num [Nat.digitChar]
    rfl
  · rw [formatWeight, if_neg (by norm_num), toFixed1]
    have habs : |(125 / 2 : ℚ)| = 125 / 2 := by norm_num
    have h2 : (⌊|(125 / 2 : ℚ)| * 10 + 1 / 2⌋) = 625 := by rw [habs]; norm_num
    rw [h2, if_neg (by norm_num)]
    show "" ++ String.mk (natToChars ((625 : ℤ).toNat / 10)) ++ "." ++
        String.mk [Nat.digitChar ((625 : ℤ).toNat % 10)] = "62.5"
    norm_num
    rw [natToChars, natToChars]
    norm_num [Nat.digitChar]
    rfl

/-- Witness for C8: the integral weight 42 renders without a decimal
point, and the fractional weight 26.5 renders as digits, one point, and
one trailing digit. -/
theorem formatWeight_shape_witness :
    '.' ∉ (formatWeight 42).data ∧
    ∃ pre d, (formatWeight (53 / 2)).data = pre ++ ['.', d] ∧ '.' ∉ pre ∧
      d.isDigit = true :=
  ⟨(formatWeight_shape 42).1 ⟨42, by norm_num⟩,
   (formatWeight_shape (53 / 2)).2.1 (by
      rintro ⟨k, hk⟩
      have h2 : ((2 * k : ℤ) : ℚ) = 53 := by push_cast; linarith [hk]
      have h3 : (2 * k : ℤ) = 53 := by exact_mod_cast h2
      omega)⟩

/-- Claim C9: an increase suggestion need not be a multiple of the
equipment increment: for one previous set of 2.4 kg × 10 at target 10 on
dumbbell (increment 2), the rounded 2.5% increase (2) does not exceed the
max weight 2.4, so the guard returns 2.4 + 2 = 4.4, which is not an
integer multiple of 2. -/
theorem increase_not_multiple_of_increment :
    calculateSuggestedWeight (some [⟨some (12 / 5), some 10⟩]) 10 .dumbbell =
      some ⟨22 / 5, true⟩ ∧
    EQUIPMENT_INCREMENTS .dumbbell = 2 ∧
    ∀ k : ℤ, (k : ℚ) * 2 ≠ 22 / 5 := by
  refine ⟨?_, rfl, ?_⟩
  · norm_num [calculateSuggestedWeight, List.filter, hasPosWeight, listMax,
      List.all, roundToIncrement, mathRound, EQUIPMENT_INCREMENTS,
      INCREASE_PERCENTAGE]
    exact fun h => nomatch h
  · intro k h
    have h2 : ((5 * (k * 2) : ℤ) : ℚ) = 22 := by push_cast; linarith [h]
    have h3 : (5 * (k * 2) : ℤ) = 22 := by exact_mod_cast h2
    omega

/-- Claim C10: omitting the equipment argument defaults it to `other`
(increment 2.5): the call without equipment equals the call with
`other` on every input, `other` is not the bodyweight no-suggestion
path, and an omitted-equipment call can produce a suggestion. -/
theorem default_equipment_other :
    (∀ (ps : Option (List PreviousSet)) (t : ℚ),
      calculateSuggestedWeight ps t = calculateSuggestedWeight ps t .other) ∧
    EQUIPMENT_INCREMENTS .other = 5 / 2 ∧
    Equipment.other ≠ .bodyweight ∧
    calculateSuggestedWeight (some [⟨some 40, some 8⟩]) 8 = some ⟨85 / 2, true⟩ := by
  refine ⟨fun ps t => rfl, rfl, by decide, ?_⟩
  norm_num [calculateSuggestedWeight, List.filter, hasPosWeight, listMax,
    List.all, roundToIncrement, mathRound, EQUIPMENT_INCREMENTS,
    INCREASE_PERCENTAGE]
  exact fun h => nomatch h

end WorkoutTracker
